import Mathlib

/-!
Verification development for the np-socket collaborative coding backend.

Part I embeds the collaborative edit engine: the diffLine handler of the
WebSocket server, which reads a file's content from the store, splits it on
the newline character, applies an insert / delete / replace operation to the
line sequence, persists the rejoined content, and emits one lineUpdated event
per elementary change.

Part II embeds the ContainerSessionManager: the per-environment client
registry, the session lifecycle (startSession / stopSession /
unregisterClient) with its observable side effects modelled as an ordered
trace of actions, and the store-backed file operations (renameFile,
deleteFile, duplicateFile).
-/

namespace NpSocket

/-- A line of text, as the list of its characters. -/
abbrev Line := List Char

/-- File content, as the list of its characters. -/
abbrev Content := List Char

/-- Split content on the newline character, as JS String.prototype.split does
with a one-character separator: empty content yields one empty line, and each
newline separates two (possibly empty) lines. -/
def splitNl : Content → List Line
  | [] => [[]]
  | c :: cs =>
    if c = '\n' then [] :: splitNl cs
    else
      match splitNl cs with
      | [] => [[c]]
      | l :: ls => (c :: l) :: ls

/-- Join lines with the newline character, as Array.prototype.join does. -/
def joinNl : List Line → Content
  | [] => []
  | [l] => l
  | l :: l' :: ls => l ++ '\n' :: joinNl (l' :: ls)

/-- Array.prototype.splice insertion at a start index with no removals. JS
clamps the start index to the array length; List.take and List.drop clamp the
same way, so no explicit min is needed. -/
def spliceInsert (lines : List Line) (start : Nat) (items : List Line) : List Line :=
  lines.take start ++ items ++ lines.drop start

/-- Array.prototype.splice removal of cnt elements at a start index (with the
same index clamping as spliceInsert). -/
def spliceDelete (lines : List Line) (start cnt : Nat) : List Line :=
  lines.take start ++ lines.drop (start + cnt)

/-- The op field of a lineUpdated event. -/
inductive OpKind
  | insert
  | delete
  | replace
deriving DecidableEq

/-- One lineUpdated event as broadcast by the diffLine handler (the fileName
field is constant across one operation and is omitted). -/
structure LineUpdate where
  op : OpKind
  lineNumber : Nat
  lineContent : Option Line
deriving DecidableEq

/-- A diffLine request, after the handler's own normalization: a non-array
lineContent has already been wrapped into a one-element list, and count is the
client-supplied delete count when it was a number. -/
inductive DiffOp
  | insert (lineNumber : Nat) (lineContent : List Line)
  | delete (lineNumber : Nat) (count : Option Int)
  | replace (lineNumber : Nat) (lineContent : List Line)
deriving DecidableEq

/-- The update events pushed by the insert loop: one insert update per
inserted line; pos plays the role of lineNumber + i. -/
def insertUpdatesFrom (pos : Nat) : List Line → List LineUpdate
  | [] => []
  | v :: vs => ⟨OpKind.insert, pos, some v⟩ :: insertUpdatesFrom (pos + 1) vs

/-- The replace loop of the diffLine handler: at each offset, overwrite the
line when the index is inside the current sequence, otherwise splice-insert it
there; pos plays the role of lineNumber + i. -/
def replaceLoopAux : List Line → Nat → List Line → List Line × List LineUpdate
  | lines, _, [] => (lines, [])
  | lines, pos, v :: vs =>
    if pos < lines.length then
      let r := replaceLoopAux (lines.set pos v) (pos + 1) vs
      (r.1, ⟨OpKind.replace, pos, some v⟩ :: r.2)
    else
      let r := replaceLoopAux (spliceInsert lines pos [v]) (pos + 1) vs
      (r.1, ⟨OpKind.insert, pos, some v⟩ :: r.2)

/-- The delete branch: the count defaults to 1 unless it is a positive number,
and every emitted delete update carries the same lineNumber. -/
def applyDelete (lines : List Line) (lineNumber : Nat) (count : Option Int) :
    List Line × List LineUpdate :=
  let deleteCount : Nat :=
    match count with
    | some n => if 0 < n then n.toNat else 1
    | none => 1
  (spliceDelete lines lineNumber deleteCount,
   List.replicate deleteCount ⟨OpKind.delete, lineNumber, none⟩)

/-- One diffLine operation on the line sequence, returning the new sequence
and the update events to broadcast, in emission order. -/
def applyDiffOp (lines : List Line) : DiffOp → List Line × List LineUpdate
  | DiffOp.insert l vs => (spliceInsert lines l vs, insertUpdatesFrom l vs)
  | DiffOp.delete l c => applyDelete lines l c
  | DiffOp.replace l vs => replaceLoopAux lines l vs

/-- The diffLine handler on stored content: split on newlines, apply the
operation, join, persist the joined content. -/
def diffLine (c : Content) (op : DiffOp) : Content × List LineUpdate :=
  let r := applyDiffOp (splitNl c) op
  (joinNl r.1, r.2)

/-- A sequence of diffLine operations, each reading the content persisted by
the previous one; updates accumulate in emission order. -/
def applyOps : Content → List DiffOp → Content × List LineUpdate
  | c, [] => (c, [])
  | c, op :: ops =>
    let r := diffLine c op
    let rest := applyOps r.1 ops
    (rest.1, r.2 ++ rest.2)

/-- Modelled from the spec: how an independent replaying client (not part of
this repository) applies one lineUpdated event to its line sequence. An insert
update splices the carried line in at its index, a delete update removes one
line at its index, a replace update overwrites the line at its index. -/
def applySingle (lines : List Line) : LineUpdate → List Line
  | ⟨OpKind.insert, j, some v⟩ => spliceInsert lines j [v]
  | ⟨OpKind.insert, _, none⟩ => lines
  | ⟨OpKind.delete, j, _⟩ => spliceDelete lines j 1
  | ⟨OpKind.replace, j, some v⟩ => lines.set j v
  | ⟨OpKind.replace, _, none⟩ => lines

/-- Modelled from the spec: replaying one update against held content, by the
same split-apply-join discipline the server uses for an operation. -/
def replayUpdate (c : Content) (u : LineUpdate) : Content :=
  joinNl (applySingle (splitNl c) u)

/-- Modelled from the spec: replaying a stream of updates in emission order
against an independent copy of the content. -/
def replayUpdates (c : Content) (us : List LineUpdate) : Content :=
  us.foldl replayUpdate c

/-- The content values an operation carries. -/
def opContents : DiffOp → List Line
  | DiffOp.insert _ vs => vs
  | DiffOp.delete _ _ => []
  | DiffOp.replace _ vs => vs

/-- A valid diffLine operation supplies genuine lines: no carried content
value contains the newline separator. -/
def ValidOp (op : DiffOp) : Prop := ∀ v ∈ opContents op, '\n' ∉ v

instance (op : DiffOp) : Decidable (ValidOp op) := by
  unfold ValidOp; infer_instance

/-- The update list the replace specification predicts, phrased against the
initial sequence length n: a replace update where the target index is below n,
an insert update otherwise. -/
def replaceUpdatesPredicted (pos n : Nat) : List Line → List LineUpdate
  | [] => []
  | v :: vs =>
    (if pos < n then (⟨OpKind.replace, pos, some v⟩ : LineUpdate)
     else ⟨OpKind.insert, pos, some v⟩) :: replaceUpdatesPredicted (pos + 1) n vs

/-! Part II: the ContainerSessionManager. Maps (the redis store, the Map of
sessions, the Map of client sets, the on-disk working directories) are
modelled as association lists; the observable side effects of a call are
returned as an ordered trace of actions. -/

/-- Association list lookup: Map.get, and the store's get. -/
def alookup {κ α : Type} [DecidableEq κ] : List (κ × α) → κ → Option α
  | [], _ => none
  | (k', v) :: t, k => if k' = k then some v else alookup t k

/-- Association list insert-or-overwrite: Map.set, and the store's set. -/
def aupdate {κ α : Type} [DecidableEq κ] : List (κ × α) → κ → α → List (κ × α)
  | [], k, v => [(k, v)]
  | (k', v') :: t, k, v =>
    if k' = k then (k, v) :: t else (k', v') :: aupdate t k v

/-- Association list removal: Map.delete, and the store's del. -/
def aremove {κ α : Type} [DecidableEq κ] : List (κ × α) → κ → List (κ × α)
  | [], _ => []
  | (k', v') :: t, k => if k' = k then aremove t k else (k', v') :: aremove t k

/-- One session record: the container name (derived from the environment id)
and the working directory (modelled by the environment id itself). -/
structure Session where
  containerName : String
  sessionDir : String
deriving DecidableEq

/-- The manager's mutable state: the sessions map, the clients map, the
materialized per-environment working directories, and the redis store. -/
structure MgrState where
  sessions : List (String × Session)
  clientsMap : List (String × List Nat)
  workdirs : List (String × List (String × String))
  store : List (String × String)
deriving DecidableEq

/-- An outbound event envelope, as broadcast to an environment's clients. -/
inductive Msg
  | stopped (environmentId : String) (success : Bool) (reason : Option String)
  | output (text : String)
  | exited (exitCode : Int)
deriving DecidableEq

/-- One observable side effect of a manager call, in program order:
killContainer is the docker kill spawned by name, killPty is the kill of the
local pty handle, broadcast is one broadcastToEnvironment call, and spawnRun
is the spawn of the sandboxed run for the environment's working directory. -/
inductive SbAction
  | killContainer (containerName : String)
  | killPty (environmentId : String)
  | broadcast (environmentId : String) (msg : Msg)
  | spawnRun (environmentId : String) (mainFile : String)
deriving DecidableEq

/-- The redis key for a file: environmentId, underscore, fileName. -/
def fileKey (env fn : String) : String := env ++ "_" ++ fn

/-- The built-in fallback body used only for main.py with no stored content. -/
def defaultMainPy : String :=
  "import time\nwhile True:\n print(\"hello world\")\n time.sleep(1)"

/-- registerClient: create the environment's client set if missing, then add
the client (a set add: a no-op when already present). -/
def registerClient (st : MgrState) (env : String) (c : Nat) : MgrState :=
  let cs := (alookup st.clientsMap env).getD []
  let cs' := if c ∈ cs then cs else cs ++ [c]
  { st with clientsMap := aupdate st.clientsMap env cs' }

/-- stopSession: absent session is a no-op returning false; otherwise spawn a
docker kill by container name, kill the pty handle, and clear the record. -/
def stopSession (st : MgrState) (env : String) : MgrState × Bool × List SbAction :=
  match alookup st.sessions env with
  | none => (st, false, [])
  | some s =>
    ({ st with sessions := aremove st.sessions env }, true,
     [SbAction.killContainer s.containerName, SbAction.killPty env])

/-- unregisterClient: remove the client from the environment's set; when the
set becomes empty, stop the session and discard the set entry. -/
def unregisterClient (st : MgrState) (env : String) (c : Nat) :
    MgrState × List SbAction :=
  match alookup st.clientsMap env with
  | none => (st, [])
  | some cs =>
    let cs' := cs.erase c
    if cs' = [] then
      let st1 := { st with clientsMap := aupdate st.clientsMap env cs' }
      let r := stopSession st1 env
      ({ r.1 with clientsMap := aremove r.1.clientsMap env }, r.2.2)
    else
      ({ st with clientsMap := aupdate st.clientsMap env cs' }, [])

/-- buildFileObject: fetch each requested file from the store; a missing or
empty content falls back to the built-in default only for main.py, otherwise
to the empty string. The server-side hash of the result is modelled by the
file mapping itself (an injective stand-in for the sha256 of its JSON). -/
def buildFileObject (store : List (String × String)) (env : String)
    (fileNames : List String) : List (String × String) :=
  fileNames.map fun fn =>
    let c := alookup store (fileKey env fn)
    let content :=
      match c with
      | none => if fn = "main.py" then defaultMainPy else ""
      | some s => if s = "" ∧ fn = "main.py" then defaultMainPy else s
    (fn, content)

/-- writeFilesToDir: write each file into the environment's working
directory, overwriting per file and keeping any other files already there. -/
def writeFilesToDir (st : MgrState) (env : String)
    (files : List (String × String)) : MgrState :=
  let dir := (alookup st.workdirs env).getD []
  let dir' := files.foldl (fun d p => aupdate d p.1 p.2) dir
  { st with workdirs := aupdate st.workdirs env dir' }

/-- Where an injected exception interrupts startSession's try block: at the
store reads, at the working-directory writes, or at the sandbox spawn. -/
inductive FailPoint
  | read
  | write
  | spawnProc
deriving DecidableEq

/-- The synthetic error line the catch block broadcasts, one per fail point
(standing in for the runtime error message). -/
def errText : FailPoint → String
  | FailPoint.read => "Error starting session: store read failed"
  | FailPoint.write => "Error starting session: file write failed"
  | FailPoint.spawnProc => "Error starting session: spawn failed"

/-- The stopped event broadcast when a restart tears down the old session. -/
def stoppedRestartedMsg (env : String) : Msg :=
  Msg.stopped env true (some "restarted")

/-- startSession: stop any existing session first and broadcast the stopped
event; then (unless an injected exception fires) fetch the files from the
store, materialize them into the working directory, pick the entry file,
compare the client hash against the server hash (the mismatch branch binds
the client files, which the rest of the code never consults — mirroring the
source), and spawn the sandboxed run. On an injected exception the catch
block broadcasts the synthetic output and exit events and returns false. -/
def startSession (st : MgrState) (env : String) (fileNames : List String)
    (clientHash : List (String × String)) (clientFiles : List (String × String))
    (failAt : Option FailPoint) : MgrState × List SbAction × Bool :=
  let s0 :=
    match alookup st.sessions env with
    | some _ =>
      let r := stopSession st env
      (r.1, r.2.2 ++ [SbAction.broadcast env (stoppedRestartedMsg env)])
    | none => (st, ([] : List SbAction))
  let st1 := s0.1
  let tr1 := s0.2
  match failAt with
  | some fp =>
    let st2 :=
      match fp with
      | FailPoint.read => st1
      | FailPoint.write => st1
      | FailPoint.spawnProc =>
        writeFilesToDir st1 env (buildFileObject st1.store env fileNames)
    (st2,
     tr1 ++ [SbAction.broadcast env (Msg.output (errText fp)),
             SbAction.broadcast env (Msg.exited 1)],
     false)
  | none =>
    let files := buildFileObject st1.store env fileNames
    let serverHash := files
    let st2 := writeFilesToDir st1 env files
    let mainFile :=
      if fileNames.contains "main.py" then "main.py" else fileNames.headD ""
    let _filesForRun := if clientHash ≠ serverHash then clientFiles else files
    let containerName := "nixpackpy_" ++ env
    let st3 := { st2 with sessions := aupdate st2.sessions env ⟨containerName, env⟩ }
    (st3, tr1 ++ [SbAction.spawnRun env mainFile], true)

/-- renameFile: missing source throws; otherwise set the new key, then delete
the old key, and return true. -/
def renameFile (st : MgrState) (env oldName newName : String) :
    Except String (MgrState × Bool) :=
  match alookup st.store (fileKey env oldName) with
  | none => Except.error "File does not exist"
  | some content =>
    let withNew := aupdate st.store (fileKey env newName) content
    Except.ok ({ st with store := aremove withNew (fileKey env oldName) }, true)

/-- deleteFile: delete the key unconditionally and return true. -/
def deleteFile (st : MgrState) (env fn : String) : MgrState × Bool :=
  ({ st with store := aremove st.store (fileKey env fn) }, true)

/-- The index of the last dot in a file name, when there is one. -/
def lastDotIdx : List Char → Option Nat
  | [] => none
  | c :: cs =>
    match lastDotIdx cs with
    | some i => some (i + 1)
    | none => if c = '.' then some 0 else none

/-- The duplicate's name: when the last dot sits at a positive index, splice
the copy suffix in before it; otherwise append the copy suffix. -/
def duplicateName (fn : String) : String :=
  match lastDotIdx fn.data with
  | some i =>
    if 0 < i then
      String.mk (fn.data.take i) ++ "_copy" ++ String.mk (fn.data.drop i)
    else fn ++ "_copy"
  | none => fn ++ "_copy"

/-- duplicateFile: missing source throws; otherwise store the content under
the derived name and return that name. -/
def duplicateFile (st : MgrState) (env fn : String) :
    Except String (MgrState × String) :=
  match alookup st.store (fileKey env fn) with
  | none => Except.error "File does not exist"
  | some content =>
    let newName := duplicateName fn
    Except.ok
      ({ st with store := aupdate st.store (fileKey env newName) content },
       newName)

/-- The getFiles dispatcher case, restricted to its state effects: overwrite
the client's environment binding, then register the client with that
environment (the reply that lists the files is a pure read and is elided). -/
def handleGetFiles (st : MgrState) (bindings : List (Nat × String))
    (c : Nat) (env : String) : MgrState × List (Nat × String) :=
  (registerClient st env c, aupdate bindings c env)

/-! Basic facts about splitting and joining on the newline character. -/

theorem splitNl_ne_nil (cs : Content) : splitNl cs ≠ [] := by
  cases cs with
  | nil => simp [splitNl]
  | cons c cs =>
    simp only [splitNl]
    split
    · simp
    · split <;> simp

theorem no_nl_of_mem_splitNl : ∀ (cs : Content) (l : Line), l ∈ splitNl cs → '\n' ∉ l := by
  intro cs
  induction cs with
  | nil =>
    intro l hl
    simp [splitNl] at hl
    simp [hl]
  | cons c cs ih =>
    intro l hl
    simp only [splitNl] at hl
    by_cases h : c = '\n'
    · rw [if_pos h] at hl
      rcases List.mem_cons.mp hl with h1 | h1
      · simp [h1]
      · exact ih l h1
    · rw [if_neg h] at hl
      rcases hs : splitNl cs with _ | ⟨m, ms⟩
      · exact absurd hs (splitNl_ne_nil cs)
      · rw [hs] at hl
        rcases List.mem_cons.mp hl with h1 | h1
        · subst h1
          intro hmem
          rcases List.mem_cons.mp hmem with h2 | h2
          · exact h h2.symm
          · exact ih m (by rw [hs]; exact List.mem_cons_self m ms) h2
        · exact ih l (by rw [hs]; exact List.mem_cons.mpr (Or.inr h1))

theorem joinNl_splitNl (cs : Content) : joinNl (splitNl cs) = cs := by
  induction cs with
  | nil => simp [splitNl, joinNl]
  | cons c cs ih =>
    simp only [splitNl]
    by_cases h : c = '\n'
    · rw [if_pos h]
      rcases hs : splitNl cs with _ | ⟨m, ms⟩
      · exact absurd hs (splitNl_ne_nil cs)
      · rw [hs] at ih
        subst h
        simp only [joinNl, List.nil_append]
        rw [ih]
    · rw [if_neg h]
      rcases hs : splitNl cs with _ | ⟨m, ms⟩
      · exact absurd hs (splitNl_ne_nil cs)
      · rw [hs] at ih
        cases ms with
        | nil =>
          simp only [joinNl] at ih ⊢
          rw [ih]
        | cons m' ms' =>
          simp only [joinNl, List.cons_append] at ih ⊢
          rw [ih]

theorem splitNl_of_no_nl (l : Line) (h : '\n' ∉ l) : splitNl l = [l] := by
  induction l with
  | nil => simp [splitNl]
  | cons c cs ih =>
    have hc : c ≠ '\n' := fun e => h (by simp [e])
    have hcs : '\n' ∉ cs := fun m => h (List.mem_cons.mpr (Or.inr m))
    simp only [splitNl, if_neg hc, ih hcs]

theorem splitNl_append_nl (l : Line) (r : Content) (h : '\n' ∉ l) :
    splitNl (l ++ '\n' :: r) = l :: splitNl r := by
  induction l with
  | nil => simp [splitNl]
  | cons c cs ih =>
    have hc : c ≠ '\n' := fun e => h (by simp [e])
    have hcs : '\n' ∉ cs := fun m => h (List.mem_cons.mpr (Or.inr m))
    rw [List.cons_append]
    simp only [splitNl, if_neg hc]
    rw [ih hcs]

theorem splitNl_joinNl (L : List Line) (hne : L ≠ [])
    (h : ∀ l ∈ L, '\n' ∉ l) : splitNl (joinNl L) = L := by
  induction L with
  | nil => exact absurd rfl hne
  | cons l ls ih =>
    cases ls with
    | nil => simpa [joinNl] using splitNl_of_no_nl l (h l (by simp))
    | cons l' ls' =>
      have h1 : '\n' ∉ l := h l (by simp)
      have ih' := ih (by simp) (fun x hx => h x (List.mem_cons.mpr (Or.inr hx)))
      simp only [joinNl]
      rw [splitNl_append_nl l _ h1, ih']

/-! Unfolding equations for the splice operations, and preservation of
nonemptiness and newline-freedom. -/

theorem spliceInsert_nil' (pos : Nat) (it : List Line) :
    spliceInsert [] pos it = it := by
  simp [spliceInsert]

theorem spliceInsert_zero (M : List Line) (it : List Line) :
    spliceInsert M 0 it = it ++ M := by
  simp [spliceInsert]

theorem spliceInsert_cons_succ (a : Line) (M : List Line) (pos : Nat)
    (it : List Line) :
    spliceInsert (a :: M) (pos + 1) it = a :: spliceInsert M pos it := by
  simp [spliceInsert, List.take_succ_cons, List.drop_succ_cons]

theorem spliceDelete_nil' (pos cnt : Nat) : spliceDelete [] pos cnt = [] := by
  simp [spliceDelete]

theorem spliceDelete_zero_start (M : List Line) (cnt : Nat) :
    spliceDelete M 0 cnt = M.drop cnt := by
  simp [spliceDelete]

theorem spliceDelete_cons_succ (a : Line) (M : List Line) (pos cnt : Nat) :
    spliceDelete (a :: M) (pos + 1) cnt = a :: spliceDelete M pos cnt := by
  have h : pos + 1 + cnt = (pos + cnt) + 1 := by omega
  simp [spliceDelete, List.take_succ_cons, h, List.drop_succ_cons]

theorem spliceInsert_ne_nil (M : List Line) (pos : Nat) (it : List Line)
    (h : M ≠ []) : spliceInsert M pos it ≠ [] := by
  rw [spliceInsert]
  intro he
  rcases List.append_eq_nil.mp he with ⟨h1, h4⟩
  rcases List.append_eq_nil.mp h1 with ⟨h2, _⟩
  cases M with
  | nil => exact h rfl
  | cons a t =>
    cases pos with
    | zero => simp at h4
    | succ p => simp [List.take_succ_cons] at h2

theorem set_ne_nil (M : List Line) (pos : Nat) (v : Line) (h : M ≠ []) :
    M.set pos v ≠ [] := by
  intro he
  apply h
  have hlen := congrArg List.length he
  rw [List.length_set] at hlen
  exact List.eq_nil_of_length_eq_zero (by simpa using hlen)

theorem nlfree_spliceInsert (M : List Line) (pos : Nat) (it : List Line)
    (hM : ∀ l ∈ M, '\n' ∉ l) (hit : ∀ l ∈ it, '\n' ∉ l) :
    ∀ l ∈ spliceInsert M pos it, '\n' ∉ l := by
  intro l hl
  rw [spliceInsert] at hl
  rcases List.mem_append.mp hl with h1 | h1
  · rcases List.mem_append.mp h1 with h2 | h2
    · exact hM l (List.take_subset _ _ h2)
    · exact hit l h2
  · exact hM l (List.drop_subset _ _ h1)

theorem nlfree_spliceDelete (M : List Line) (pos cnt : Nat)
    (hM : ∀ l ∈ M, '\n' ∉ l) :
    ∀ l ∈ spliceDelete M pos cnt, '\n' ∉ l := by
  intro l hl
  rw [spliceDelete] at hl
  rcases List.mem_append.mp hl with h1 | h1
  · exact hM l (List.take_subset _ _ h1)
  · exact hM l (List.drop_subset _ _ h1)

theorem nlfree_set (M : List Line) (pos : Nat) (v : Line)
    (hM : ∀ l ∈ M, '\n' ∉ l) (hv : '\n' ∉ v) :
    ∀ l ∈ M.set pos v, '\n' ∉ l := by
  intro l hl
  rcases List.mem_or_eq_of_mem_set hl with h1 | h1
  · exact hM l h1
  · rw [h1]; exact hv

/-! Replay infrastructure. -/

theorem replayUpdates_nil (c : Content) : replayUpdates c [] = c := rfl

theorem replayUpdates_cons (c : Content) (u : LineUpdate) (us : List LineUpdate) :
    replayUpdates c (u :: us) = replayUpdates (replayUpdate c u) us := rfl

theorem replayUpdates_append (c : Content) (us vs : List LineUpdate) :
    replayUpdates c (us ++ vs) = replayUpdates (replayUpdates c us) vs := by
  simp [replayUpdates, List.foldl_append]

theorem replayUpdate_joinNl (M : List Line) (u : LineUpdate) (hne : M ≠ [])
    (h : ∀ l ∈ M, '\n' ∉ l) :
    replayUpdate (joinNl M) u = joinNl (applySingle M u) := by
  rw [replayUpdate, splitNl_joinNl M hne h]

/-! Replaying one operation's update batch reproduces the operation. -/

theorem spliceInsert_insert_step (M : List Line) (pos : Nat) (v : Line)
    (vs : List Line) :
    spliceInsert (spliceInsert M pos [v]) (pos + 1) vs =
      spliceInsert M pos (v :: vs) := by
  induction M generalizing pos with
  | nil =>
    rw [spliceInsert_nil', spliceInsert_nil']
    rw [show ([v] : List Line) = v :: [] from rfl]
    rw [spliceInsert_cons_succ, spliceInsert_nil']
  | cons a M ih =>
    cases pos with
    | zero =>
      rw [spliceInsert_zero, spliceInsert_zero]
      rw [show ([v] : List Line) ++ a :: M = v :: a :: M from rfl]
      rw [spliceInsert_cons_succ, spliceInsert_zero]
      simp
    | succ p =>
      rw [spliceInsert_cons_succ, spliceInsert_cons_succ, spliceInsert_cons_succ,
        ih]

theorem replay_insertUpdates (vs : List Line) :
    ∀ (M : List Line) (pos : Nat), M ≠ [] → (∀ l ∈ M, '\n' ∉ l) →
    (∀ v ∈ vs, '\n' ∉ v) →
    replayUpdates (joinNl M) (insertUpdatesFrom pos vs) =
      joinNl (spliceInsert M pos vs) := by
  induction vs with
  | nil =>
    intro M pos hne h hvs
    rw [insertUpdatesFrom, replayUpdates_nil, spliceInsert]
    simp
  | cons v vs ih =>
    intro M pos hne h hvs
    rw [insertUpdatesFrom, replayUpdates_cons, replayUpdate_joinNl M _ hne h]
    rw [show applySingle M ⟨OpKind.insert, pos, some v⟩ = spliceInsert M pos [v]
      from rfl]
    rw [ih (spliceInsert M pos [v]) (pos + 1)
      (spliceInsert_ne_nil M pos [v] hne)
      (nlfree_spliceInsert M pos [v] h
        (by intro x hx; simp at hx; rw [hx]; exact hvs v (by simp)))
      (fun x hx => hvs x (List.mem_cons.mpr (Or.inr hx)))]
    rw [spliceInsert_insert_step]

theorem spliceDelete_succ (M : List Line) (pos cnt : Nat) :
    spliceDelete (spliceDelete M pos 1) pos cnt = spliceDelete M pos (cnt + 1) := by
  induction M generalizing pos with
  | nil => rw [spliceDelete_nil', spliceDelete_nil', spliceDelete_nil']
  | cons a M ih =>
    cases pos with
    | zero =>
      rw [spliceDelete_zero_start, spliceDelete_zero_start,
        spliceDelete_zero_start, List.drop_drop, Nat.add_comm 1 cnt]
    | succ p =>
      rw [spliceDelete_cons_succ, spliceDelete_cons_succ, spliceDelete_cons_succ,
        ih]

theorem replay_deletes_nil (cnt : Nat) (pos : Nat) :
    replayUpdates [] (List.replicate cnt ⟨OpKind.delete, pos, none⟩) = [] := by
  induction cnt with
  | zero => rfl
  | succ n ih =>
    rw [List.replicate_succ, replayUpdates_cons]
    have h1 : replayUpdate [] ⟨OpKind.delete, pos, none⟩ = [] := by
      rw [replayUpdate]
      rw [show splitNl [] = [[]] from rfl]
      rw [show applySingle [[]] ⟨OpKind.delete, pos, none⟩ =
        spliceDelete [[]] pos 1 from rfl]
      cases pos with
      | zero => rfl
      | succ p =>
        rw [show ([[]] : List Line) = [] :: [] from rfl]
        rw [spliceDelete_cons_succ, spliceDelete_nil']
        rfl
    rw [h1, ih]

theorem replay_deletes (cnt : Nat) :
    ∀ (M : List Line) (pos : Nat), M ≠ [] → (∀ l ∈ M, '\n' ∉ l) →
    replayUpdates (joinNl M) (List.replicate cnt ⟨OpKind.delete, pos, none⟩) =
      joinNl (spliceDelete M pos cnt) := by
  induction cnt with
  | zero =>
    intro M pos hne h
    rw [List.replicate_zero, replayUpdates_nil]
    rw [show spliceDelete M pos 0 = M from by simp [spliceDelete]]
  | succ n ih =>
    intro M pos hne h
    rw [List.replicate_succ, replayUpdates_cons, replayUpdate_joinNl M _ hne h]
    rw [show applySingle M ⟨OpKind.delete, pos, none⟩ = spliceDelete M pos 1
      from rfl]
    by_cases he : spliceDelete M pos 1 = []
    · rcases List.append_eq_nil.mp (by rw [spliceDelete] at he; exact he)
        with ⟨h1, h2⟩
      have hcur : spliceDelete M pos (n + 1) = [] := by
        rw [spliceDelete, h1, List.nil_append]
        exact List.drop_eq_nil_of_le
          (le_trans (List.drop_eq_nil_iff.mp h2) (by omega))
      rw [he, hcur]
      rw [show (joinNl [] : Content) = [] from rfl]
      exact replay_deletes_nil n pos
    · rw [ih (spliceDelete M pos 1) pos he (nlfree_spliceDelete M pos 1 h),
        spliceDelete_succ]

theorem replay_replaceLoop (vs : List Line) :
    ∀ (M : List Line) (pos : Nat), M ≠ [] → (∀ l ∈ M, '\n' ∉ l) →
    (∀ v ∈ vs, '\n' ∉ v) →
    replayUpdates (joinNl M) (replaceLoopAux M pos vs).2 =
      joinNl (replaceLoopAux M pos vs).1 := by
  induction vs with
  | nil => intro M pos hne h hvs; rfl
  | cons v vs ih =>
    intro M pos hne h hvs
    by_cases hlt : pos < M.length
    · rw [show replaceLoopAux M pos (v :: vs) =
          ((replaceLoopAux (M.set pos v) (pos + 1) vs).1,
           ⟨OpKind.replace, pos, some v⟩ ::
             (replaceLoopAux (M.set pos v) (pos + 1) vs).2) from by
        simp [replaceLoopAux, hlt]]
      rw [replayUpdates_cons, replayUpdate_joinNl M _ hne h]
      rw [show applySingle M ⟨OpKind.replace, pos, some v⟩ = M.set pos v
        from rfl]
      exact ih (M.set pos v) (pos + 1) (set_ne_nil M pos v hne)
        (nlfree_set M pos v h (hvs v (by simp)))
        (fun x hx => hvs x (List.mem_cons.mpr (Or.inr hx)))
    · rw [show replaceLoopAux M pos (v :: vs) =
          ((replaceLoopAux (spliceInsert M pos [v]) (pos + 1) vs).1,
           ⟨OpKind.insert, pos, some v⟩ ::
             (replaceLoopAux (spliceInsert M pos [v]) (pos + 1) vs).2) from by
        simp [replaceLoopAux, hlt]]
      rw [replayUpdates_cons, replayUpdate_joinNl M _ hne h]
      rw [show applySingle M ⟨OpKind.insert, pos, some v⟩ =
        spliceInsert M pos [v] from rfl]
      exact ih (spliceInsert M pos [v]) (pos + 1)
        (spliceInsert_ne_nil M pos [v] hne)
        (nlfree_spliceInsert M pos [v] h
          (by intro x hx; simp at hx; rw [hx]; exact hvs v (by simp)))
        (fun x hx => hvs x (List.mem_cons.mpr (Or.inr hx)))

theorem diffLine_replay (c : Content) (op : DiffOp) (hop : ValidOp op) :
    replayUpdates c (diffLine c op).2 = (diffLine c op).1 := by
  have hne := splitNl_ne_nil c
  have hfree := no_nl_of_mem_splitNl c
  have hc : c = joinNl (splitNl c) := (joinNl_splitNl c).symm
  cases op with
  | insert l vs =>
    simp only [diffLine, applyDiffOp]
    nth_rewrite 1 [hc]
    exact replay_insertUpdates vs (splitNl c) l hne hfree hop
  | delete l cnt =>
    simp only [diffLine, applyDiffOp, applyDelete]
    nth_rewrite 1 [hc]
    exact replay_deletes _ (splitNl c) l hne hfree
  | replace l vs =>
    simp only [diffLine, applyDiffOp]
    nth_rewrite 1 [hc]
    exact replay_replaceLoop vs (splitNl c) l hne hfree hop

/-- C2: for every sequence of valid insert/delete/replace diffLine operations
applied to a file starting from any initial content, replaying the emitted
lineUpdated events, in emission order, against an independent copy of the
original content reproduces a byte-identical copy of the final persisted
content. -/
theorem replay_fidelity (c : Content) (ops : List DiffOp)
    (h : ∀ op ∈ ops, ValidOp op) :
    replayUpdates c (applyOps c ops).2 = (applyOps c ops).1 := by
  induction ops generalizing c with
  | nil => rfl
  | cons op ops ih =>
    simp only [applyOps]
    rw [replayUpdates_append]
    rw [diffLine_replay c op (h op (by simp))]
    exact ih (diffLine c op).1 (fun o ho => h o (List.mem_cons.mpr (Or.inr ho)))

/-- Witness for replay_fidelity: a concrete run mixing an insert of two lines,
a two-line delete, and a replace that runs past the end of the file. -/
theorem replay_fidelity_witness :
    (∀ op ∈ [DiffOp.insert 1 [['x'], ['y']], DiffOp.delete 0 (some 2),
             DiffOp.replace 4 [['z'], ['w']]], ValidOp op) ∧
    replayUpdates ['a', '\n', 'b']
        (applyOps ['a', '\n', 'b']
          [DiffOp.insert 1 [['x'], ['y']], DiffOp.delete 0 (some 2),
           DiffOp.replace 4 [['z'], ['w']]]).2 =
      (applyOps ['a', '\n', 'b']
        [DiffOp.insert 1 [['x'], ['y']], DiffOp.delete 0 (some 2),
         DiffOp.replace 4 [['z'], ['w']]]).1 :=
  ⟨by decide, replay_fidelity ['a', '\n', 'b'] _ (by decide)⟩

/-! The closed form of the replace loop, for C4. -/

theorem take_set_succ (M : List Line) (pos : Nat) (v : Line)
    (h : pos < M.length) :
    (M.set pos v).take (pos + 1) = M.take pos ++ [v] := by
  induction M generalizing pos with
  | nil => simp at h
  | cons a M ih =>
    cases pos with
    | zero => simp
    | succ p =>
      rw [show (a :: M).set (p + 1) v = a :: M.set p v from rfl]
      rw [List.take_succ_cons, List.take_succ_cons]
      rw [ih p (by simpa using h)]
      simp

theorem drop_set_of_lt' (M : List Line) (pos d : Nat) (v : Line)
    (h : pos < d) : (M.set pos v).drop d = M.drop d := by
  induction M generalizing pos d with
  | nil => simp
  | cons a M ih =>
    cases pos with
    | zero =>
      cases d with
      | zero => omega
      | succ e => simp [List.drop_succ_cons]
    | succ p =>
      cases d with
      | zero => omega
      | succ e =>
        rw [show (a :: M).set (p + 1) v = a :: M.set p v from rfl]
        rw [List.drop_succ_cons, List.drop_succ_cons]
        exact ih p e (by omega)

theorem spliceInsert_of_le (M : List Line) (pos : Nat) (it : List Line)
    (h : M.length ≤ pos) : spliceInsert M pos it = M ++ it := by
  rw [spliceInsert, List.take_of_length_le h, List.drop_eq_nil_of_le h,
    List.append_nil]

theorem replaceUpdatesPredicted_of_ge (vs : List Line) :
    ∀ (pos n : Nat), n ≤ pos →
    replaceUpdatesPredicted pos n vs = insertUpdatesFrom pos vs := by
  induction vs with
  | nil => intro pos n _; rfl
  | cons v vs ih =>
    intro pos n hle
    rw [replaceUpdatesPredicted, insertUpdatesFrom, if_neg (by omega),
      ih (pos + 1) n (by omega)]

theorem replaceLoopAux_fst (vs : List Line) :
    ∀ (M : List Line) (pos : Nat),
    (replaceLoopAux M pos vs).1 =
      M.take pos ++ vs ++ M.drop (pos + min vs.length (M.length - pos)) := by
  induction vs with
  | nil =>
    intro M pos
    simp [replaceLoopAux]
  | cons v vs ih =>
    intro M pos
    by_cases hlt : pos < M.length
    · rw [show (replaceLoopAux M pos (v :: vs)).1 =
          (replaceLoopAux (M.set pos v) (pos + 1) vs).1 from by
        simp [replaceLoopAux, hlt]]
      rw [ih (M.set pos v) (pos + 1)]
      rw [take_set_succ M pos v hlt, List.length_set]
      rw [drop_set_of_lt' M pos _ v (by omega)]
      have h1 : min (v :: vs).length (M.length - pos) =
          min vs.length (M.length - (pos + 1)) + 1 := by
        rw [List.length_cons]
        have h2 : M.length - pos = (M.length - (pos + 1)) + 1 := by omega
        rw [h2, Nat.succ_min_succ]
      rw [h1]
      have h3 : pos + (min vs.length (M.length - (pos + 1)) + 1) =
          pos + 1 + min vs.length (M.length - (pos + 1)) := by omega
      rw [h3]
      simp
    · rw [show (replaceLoopAux M pos (v :: vs)).1 =
          (replaceLoopAux (spliceInsert M pos [v]) (pos + 1) vs).1 from by
        simp [replaceLoopAux, hlt]]
      rw [ih (spliceInsert M pos [v]) (pos + 1)]
      rw [spliceInsert_of_le M pos [v] (by omega)]
      have hlen : (M ++ [v]).length = M.length + 1 := by simp
      rw [hlen]
      have h1 : M.length + 1 - (pos + 1) = 0 := by omega
      have h2 : M.length - pos = 0 := by omega
      rw [h1, h2]
      simp only [Nat.min_zero, Nat.add_zero]
      rw [List.take_of_length_le (by simp; omega), List.drop_eq_nil_of_le (by simp; omega)]
      rw [List.take_of_length_le (show M.length ≤ pos from by omega),
        List.drop_eq_nil_of_le (show M.length ≤ pos from by omega)]
      simp

theorem replaceLoopAux_snd (vs : List Line) :
    ∀ (M : List Line) (pos : Nat),
    (replaceLoopAux M pos vs).2 = replaceUpdatesPredicted pos M.length vs := by
  induction vs with
  | nil => intro M pos; rfl
  | cons v vs ih =>
    intro M pos
    by_cases hlt : pos < M.length
    · rw [show (replaceLoopAux M pos (v :: vs)).2 =
          ⟨OpKind.replace, pos, some v⟩ ::
            (replaceLoopAux (M.set pos v) (pos + 1) vs).2 from by
        simp [replaceLoopAux, hlt]]
      rw [ih (M.set pos v) (pos + 1), List.length_set]
      rw [replaceUpdatesPredicted, if_pos hlt]
    · rw [show (replaceLoopAux M pos (v :: vs)).2 =
          ⟨OpKind.insert, pos, some v⟩ ::
            (replaceLoopAux (spliceInsert M pos [v]) (pos + 1) vs).2 from by
        simp [replaceLoopAux, hlt]]
      rw [ih (spliceInsert M pos [v]) (pos + 1)]
      rw [spliceInsert_of_le M pos [v] (by omega)]
      rw [show (M ++ [v]).length = M.length + 1 from by simp]
      rw [replaceUpdatesPredicted, if_neg hlt]
      rw [replaceUpdatesPredicted_of_ge vs (pos + 1) (M.length + 1) (by omega)]
      rw [replaceUpdatesPredicted_of_ge vs (pos + 1) M.length (by omega)]

/-- C4: a diffLine replace with values v at zero-based lineNumber overwrites
each line whose target index is inside the current sequence (emitting a
replace update there) and splice-inserts each value whose target index is at
or past the current length (emitting an insert update there); the resulting
sequence keeps the prefix before lineNumber, then the replacement values, then
the suffix of survivors. -/
theorem replace_degrades_to_insert (lines : List Line) (l : Nat)
    (vs : List Line) :
    applyDiffOp lines (DiffOp.replace l vs) =
      (lines.take l ++ vs ++
         lines.drop (l + min vs.length (lines.length - l)),
       replaceUpdatesPredicted l lines.length vs) := by
  simp only [applyDiffOp]
  exact Prod.ext (replaceLoopAux_fst vs lines l) (replaceLoopAux_snd vs lines l)

/-- C5: a diffLine delete with a positive integer count, on a file with at
least lineNumber + count lines, removes exactly the count contiguous lines
starting at lineNumber (the prefix before lineNumber and the suffix after the
removed block survive in order, so the sequence shrinks by count) and emits
exactly count delete updates, all carrying the requested lineNumber; an
absent or non-positive count defaults to 1. -/
theorem delete_count_spec (lines : List Line) (l : Nat) (c : Int)
    (hc : 0 < c) (hlen : l + c.toNat ≤ lines.length) :
    applyDiffOp lines (DiffOp.delete l (some c)) =
      (lines.take l ++ lines.drop (l + c.toNat),
       List.replicate c.toNat ⟨OpKind.delete, l, none⟩) ∧
    (applyDiffOp lines (DiffOp.delete l (some c))).1.length =
      lines.length - c.toNat ∧
    (∀ u ∈ (applyDiffOp lines (DiffOp.delete l (some c))).2,
        u.op = OpKind.delete ∧ u.lineNumber = l) ∧
    (∀ (M : List Line) (m : Nat),
        applyDiffOp M (DiffOp.delete m none) =
          applyDiffOp M (DiffOp.delete m (some 1))) ∧
    (∀ (M : List Line) (m : Nat) (d : Int), d ≤ 0 →
        applyDiffOp M (DiffOp.delete m (some d)) =
          applyDiffOp M (DiffOp.delete m (some 1))) := by
  refine ⟨?_, ?_, ?_, ?_, ?_⟩
  · simp [applyDiffOp, applyDelete, spliceDelete, hc]
  · simp only [applyDiffOp, applyDelete, if_pos hc, spliceDelete]
    simp only [List.length_append, List.length_take, List.length_drop]
    omega
  · intro u hu
    simp only [applyDiffOp, applyDelete, if_pos hc] at hu
    rw [List.eq_of_mem_replicate hu]
    exact ⟨rfl, rfl⟩
  · intro M m
    simp [applyDiffOp, applyDelete]
  · intro M m d hd
    simp only [applyDiffOp, applyDelete]
    rw [if_neg (by omega)]
    simp

/-- Witness for delete_count_spec: delete with count 3 at lineNumber 1 on a
5-line file removes lines 1 through 3 and emits three delete updates all
carrying lineNumber 1. -/
theorem delete_count_spec_witness :
    (0 : Int) < 3 ∧
    1 + (3 : Int).toNat ≤ ([['a'], ['b'], ['c'], ['d'], ['e']] : List Line).length ∧
    applyDiffOp [['a'], ['b'], ['c'], ['d'], ['e']] (DiffOp.delete 1 (some 3)) =
      (([['a'], ['b'], ['c'], ['d'], ['e']] : List Line).take 1 ++
         ([['a'], ['b'], ['c'], ['d'], ['e']] : List Line).drop (1 + (3 : Int).toNat),
       List.replicate (3 : Int).toNat ⟨OpKind.delete, 1, none⟩) ∧
    applyDiffOp [['a'], ['b'], ['c'], ['d'], ['e']] (DiffOp.delete 1 (some 3)) =
      ([['a'], ['e']],
       [⟨OpKind.delete, 1, none⟩, ⟨OpKind.delete, 1, none⟩, ⟨OpKind.delete, 1, none⟩]) :=
  ⟨by decide, by decide,
   (delete_count_spec [['a'], ['b'], ['c'], ['d'], ['e']] 1 3
      (by decide) (by decide)).1,
   by decide⟩

/-! Association list facts. -/

theorem alookup_aupdate_self {κ α : Type} [DecidableEq κ]
    (l : List (κ × α)) (k : κ) (v : α) :
    alookup (aupdate l k v) k = some v := by
  induction l with
  | nil => simp [aupdate, alookup]
  | cons p t ih =>
    obtain ⟨k', v'⟩ := p
    by_cases h : k' = k
    · simp [aupdate, alookup, h]
    · simp [aupdate, alookup, h, ih]

theorem alookup_aupdate_ne {κ α : Type} [DecidableEq κ]
    (l : List (κ × α)) (k k'' : κ) (v : α) (h : k'' ≠ k) :
    alookup (aupdate l k v) k'' = alookup l k'' := by
  induction l with
  | nil => simp [aupdate, alookup, Ne.symm h]
  | cons p t ih =>
    obtain ⟨k', v'⟩ := p
    by_cases h1 : k' = k
    · subst h1
      simp [aupdate, alookup, Ne.symm h]
    · simp only [aupdate, if_neg h1, alookup]
      by_cases h2 : k' = k''
      · simp [h2]
      · simp [h2, ih]

theorem alookup_aremove_self {κ α : Type} [DecidableEq κ]
    (l : List (κ × α)) (k : κ) :
    alookup (aremove l k) k = none := by
  induction l with
  | nil => simp [aremove, alookup]
  | cons p t ih =>
    obtain ⟨k', v'⟩ := p
    by_cases h : k' = k
    · simp [aremove, h, ih]
    · simp [aremove, alookup, h, ih]

theorem alookup_aremove_ne {κ α : Type} [DecidableEq κ]
    (l : List (κ × α)) (k k'' : κ) (h : k'' ≠ k) :
    alookup (aremove l k) k'' = alookup l k'' := by
  induction l with
  | nil => simp [aremove]
  | cons p t ih =>
    obtain ⟨k', v'⟩ := p
    by_cases h1 : k' = k
    · subst h1
      simp [aremove, alookup, Ne.symm h, ih]
    · simp [aremove, alookup, h1, ih]

theorem aremove_of_alookup_none {κ α : Type} [DecidableEq κ]
    (l : List (κ × α)) (k : κ) (h : alookup l k = none) :
    aremove l k = l := by
  induction l with
  | nil => rfl
  | cons p t ih =>
    obtain ⟨k', v'⟩ := p
    by_cases h1 : k' = k
    · simp [alookup, h1] at h
    · simp only [alookup, if_neg h1] at h
      simp [aremove, h1, ih h]

/-- C10: deleteFile returns true even when no file with that name exists in
the store (and then leaves the store unchanged), whereas renameFile and
duplicateFile throw a file-does-not-exist error on the same missing file. -/
theorem deleteFile_missing_ok (st : MgrState) (env fn newName : String)
    (h : alookup st.store (fileKey env fn) = none) :
    deleteFile st env fn = (st, true) ∧
    renameFile st env fn newName = Except.error "File does not exist" ∧
    duplicateFile st env fn = Except.error "File does not exist" := by
  refine ⟨?_, ?_, ?_⟩
  · simp only [deleteFile, aremove_of_alookup_none _ _ h]
  · simp only [renameFile, h]
  · simp only [duplicateFile, h]

/-- Witness for deleteFile_missing_ok: deleting, renaming or duplicating the
absent file b.py in a store that only holds e_a.py. -/
theorem deleteFile_missing_ok_witness :
    alookup (α := String) [("e_a.py", "x")] (fileKey "e" "b.py") = none ∧
    deleteFile ⟨[], [], [], [("e_a.py", "x")]⟩ "e" "b.py" =
      (⟨[], [], [], [("e_a.py", "x")]⟩, true) ∧
    renameFile ⟨[], [], [], [("e_a.py", "x")]⟩ "e" "b.py" "c.py" =
      Except.error "File does not exist" ∧
    duplicateFile ⟨[], [], [], [("e_a.py", "x")]⟩ "e" "b.py" =
      Except.error "File does not exist" :=
  ⟨by decide,
   (deleteFile_missing_ok ⟨[], [], [], [("e_a.py", "x")]⟩ "e" "b.py" "c.py"
      (by decide)).1,
   (deleteFile_missing_ok ⟨[], [], [], [("e_a.py", "x")]⟩ "e" "b.py" "c.py"
      (by decide)).2.1,
   (deleteFile_missing_ok ⟨[], [], [], [("e_a.py", "x")]⟩ "e" "b.py" "c.py"
      (by decide)).2.2⟩

/-- C9: duplicating an existing file stores a copy with exactly the original
content under the derived name and returns that name; the derivation splices
the copy suffix in before the last dot when that dot sits at a positive
index, and appends the copy suffix otherwise (extensionless names and
dotfiles whose only dot is at index 0 both take the suffix form). -/
theorem duplicateFile_copies_and_names (st : MgrState) (env fn content : String)
    (h : alookup st.store (fileKey env fn) = some content) :
    duplicateFile st env fn =
      Except.ok
        ({ st with store := aupdate st.store (fileKey env (duplicateName fn)) content },
         duplicateName fn) ∧
    alookup (aupdate st.store (fileKey env (duplicateName fn)) content)
        (fileKey env (duplicateName fn)) = some content := by
  refine ⟨?_, alookup_aupdate_self _ _ _⟩
  simp only [duplicateFile, h]

/-- Witness for duplicateFile_copies_and_names: the derived names for a.py, a
dotless name and a dotfile, and a duplication run that copies the content. -/
theorem duplicateFile_copies_and_names_witness :
    duplicateName "a.py" = "a_copy.py" ∧
    duplicateName "Makefile" = "Makefile_copy" ∧
    duplicateName ".bashrc" = ".bashrc_copy" ∧
    alookup (α := String) [("e_a.py", "x")] (fileKey "e" "a.py") = some "x" ∧
    duplicateFile ⟨[], [], [], [("e_a.py", "x")]⟩ "e" "a.py" =
      Except.ok
        ({ (⟨[], [], [], [("e_a.py", "x")]⟩ : MgrState) with
            store := aupdate [("e_a.py", "x")] (fileKey "e" (duplicateName "a.py")) "x" },
         duplicateName "a.py") ∧
    alookup (aupdate [("e_a.py", "x")] (fileKey "e" (duplicateName "a.py")) "x")
        (fileKey "e" (duplicateName "a.py")) = some "x" :=
  ⟨by decide, by decide, by decide, by decide,
   (duplicateFile_copies_and_names ⟨[], [], [], [("e_a.py", "x")]⟩ "e" "a.py" "x"
      (by decide)).1,
   (duplicateFile_copies_and_names ⟨[], [], [], [("e_a.py", "x")]⟩ "e" "a.py" "x"
      (by decide)).2⟩

/-- C8: a client already registered with environment e1 that issues a getFiles
naming a different environment e2 has its binding overwritten to e2 and is
added to e2's client set while still remaining a member of e1's set: rebinding
never unregisters the client from its previous environment. -/
theorem rebind_keeps_old_registration (st : MgrState)
    (bindings : List (Nat × String)) (c : Nat) (e1 e2 : String)
    (cs1 : List Nat) (h1 : alookup st.clientsMap e1 = some cs1)
    (hc : c ∈ cs1) (hne : e1 ≠ e2) :
    alookup (handleGetFiles st bindings c e2).1.clientsMap e1 = some cs1 ∧
    c ∈ cs1 ∧
    (∃ cs2, alookup (handleGetFiles st bindings c e2).1.clientsMap e2 = some cs2 ∧
      c ∈ cs2) ∧
    alookup (handleGetFiles st bindings c e2).2 c = some e2 := by
  refine ⟨?_, hc, ?_, ?_⟩
  · simp only [handleGetFiles, registerClient]
    rw [alookup_aupdate_ne _ _ _ _ hne]
    exact h1
  · refine ⟨if c ∈ (alookup st.clientsMap e2).getD [] then
        (alookup st.clientsMap e2).getD []
      else (alookup st.clientsMap e2).getD [] ++ [c], ?_, ?_⟩
    · simp only [handleGetFiles, registerClient]
      exact alookup_aupdate_self _ _ _
    · split
      · assumption
      · simp
  · simp only [handleGetFiles]
    exact alookup_aupdate_self _ _ _

/-- Witness for rebind_keeps_old_registration: client 7 is registered with e1
and then issues getFiles for e2. -/
theorem rebind_keeps_old_registration_witness :
    alookup (α := List Nat) [("e1", [7])] "e1" = some [7] ∧ 7 ∈ [7] ∧ "e1" ≠ "e2" ∧
    (alookup (handleGetFiles ⟨[], [("e1", [7])], [], []⟩ [(7, "e1")] 7 "e2").1.clientsMap
        "e1" = some [7] ∧
      7 ∈ [7] ∧
      (∃ cs2, alookup (handleGetFiles ⟨[], [("e1", [7])], [], []⟩ [(7, "e1")] 7
          "e2").1.clientsMap "e2" = some cs2 ∧ 7 ∈ cs2) ∧
      alookup (handleGetFiles ⟨[], [("e1", [7])], [], []⟩ [(7, "e1")] 7 "e2").2 7 =
        some "e2") :=
  ⟨by decide, by decide, by decide,
   rebind_keeps_old_registration ⟨[], [("e1", [7])], [], []⟩ [(7, "e1")] 7
     "e1" "e2" [7] (by decide) (by decide) (by decide)⟩

/-- C6: unregistering a client removes it from the environment's set; when the
removed client was the last one and a session is active, the session is
stopped (the container kill and the pty kill are issued and the session
record is cleared) and the empty set entry is discarded; unregistering a
non-last client leaves the sessions map untouched and issues no action. -/
theorem unregister_last_client_stops_session (st : MgrState) (env : String)
    (c : Nat) (cs : List Nat) (hcs : alookup st.clientsMap env = some cs) :
    (∀ s : Session, cs.erase c = [] → alookup st.sessions env = some s →
      unregisterClient st env c =
        ({ st with sessions := aremove st.sessions env,
                   clientsMap := aremove (aupdate st.clientsMap env []) env },
         [SbAction.killContainer s.containerName, SbAction.killPty env]) ∧
      alookup (unregisterClient st env c).1.sessions env = none ∧
      alookup (unregisterClient st env c).1.clientsMap env = none) ∧
    (cs.erase c ≠ [] →
      (unregisterClient st env c).1.sessions = st.sessions ∧
      (unregisterClient st env c).2 = [] ∧
      alookup (unregisterClient st env c).1.clientsMap env = some (cs.erase c)) := by
  constructor
  · intro s he hs
    have heq : unregisterClient st env c =
        ({ st with sessions := aremove st.sessions env,
                   clientsMap := aremove (aupdate st.clientsMap env []) env },
         [SbAction.killContainer s.containerName, SbAction.killPty env]) := by
      simp only [unregisterClient, hcs, he, stopSession, hs]
      simp
    refine ⟨heq, ?_, ?_⟩
    · rw [heq]
      exact alookup_aremove_self _ _
    · rw [heq]
      exact alookup_aremove_self _ _
  · intro hne
    simp only [unregisterClient, hcs]
    rw [if_neg hne]
    exact ⟨rfl, rfl, alookup_aupdate_self _ _ _⟩

/-- Witness for unregister_last_client_stops_session: removing the last client
of an environment with a live session kills the sandbox and clears the
records, while removing one of two clients does neither. -/
theorem unregister_last_client_stops_session_witness :
    alookup (α := List Nat) [("e", [7])] "e" = some [7] ∧
    ([7] : List Nat).erase 7 = [] ∧
    alookup [("e", (⟨"nixpackpy_e", "e"⟩ : Session))] "e" =
      some ⟨"nixpackpy_e", "e"⟩ ∧
    unregisterClient ⟨[("e", ⟨"nixpackpy_e", "e"⟩)], [("e", [7])], [], []⟩ "e" 7 =
      ({ (⟨[("e", ⟨"nixpackpy_e", "e"⟩)], [("e", [7])], [], []⟩ : MgrState) with
          sessions := aremove [("e", ⟨"nixpackpy_e", "e"⟩)] "e",
          clientsMap := aremove (aupdate [("e", [7])] "e" []) "e" },
       [SbAction.killContainer "nixpackpy_e", SbAction.killPty "e"]) ∧
    ([7, 8] : List Nat).erase 7 ≠ [] ∧
    (unregisterClient ⟨[("e", ⟨"nixpackpy_e", "e"⟩)], [("e", [7, 8])], [], []⟩
        "e" 7).1.sessions = [("e", ⟨"nixpackpy_e", "e"⟩)] ∧
    (unregisterClient ⟨[("e", ⟨"nixpackpy_e", "e"⟩)], [("e", [7, 8])], [], []⟩
        "e" 7).2 = [] :=
  ⟨by decide, by decide, by decide,
   ((unregister_last_client_stops_session
        ⟨[("e", ⟨"nixpackpy_e", "e"⟩)], [("e", [7])], [], []⟩ "e" 7 [7]
        (by decide)).1 ⟨"nixpackpy_e", "e"⟩ (by decide) (by decide)).1,
   by decide,
   ((unregister_last_client_stops_session
        ⟨[("e", ⟨"nixpackpy_e", "e"⟩)], [("e", [7, 8])], [], []⟩ "e" 7 [7, 8]
        (by decide)).2 (by decide)).1,
   ((unregister_last_client_stops_session
        ⟨[("e", ⟨"nixpackpy_e", "e"⟩)], [("e", [7, 8])], [], []⟩ "e" 7 [7, 8]
        (by decide)).2 (by decide)).2.1⟩

/-- C7: whenever an exception interrupts startSession's post-restart steps,
the call broadcasts a synthetic error output line immediately followed by an
exit event with code 1 to the whole environment, returns false, and leaves the
environment with no active session record. -/
theorem startSession_error_path (st : MgrState) (env : String)
    (fileNames : List String) (clientHash clientFiles : List (String × String))
    (fp : FailPoint) :
    (startSession st env fileNames clientHash clientFiles (some fp)).2.2 = false ∧
    (∃ pre : List SbAction,
      (startSession st env fileNames clientHash clientFiles (some fp)).2.1 =
        pre ++ [SbAction.broadcast env (Msg.output (errText fp)),
                SbAction.broadcast env (Msg.exited 1)]) ∧
    alookup (startSession st env fileNames clientHash clientFiles
      (some fp)).1.sessions env = none := by
  cases hs : alookup st.sessions env with
  | none =>
    refine ⟨?_, ⟨[], ?_⟩, ?_⟩
    · simp [startSession, hs]
    · simp [startSession, hs]
    · cases fp <;> simp [startSession, hs, writeFilesToDir]
  | some s =>
    refine ⟨?_, ⟨[SbAction.killContainer s.containerName, SbAction.killPty env,
        SbAction.broadcast env (stoppedRestartedMsg env)], ?_⟩, ?_⟩
    · simp [startSession, hs, stopSession]
    · simp [startSession, hs, stopSession]
    · cases fp <;>
        simp [startSession, hs, stopSession, writeFilesToDir,
          alookup_aremove_self]

/-- C3: when startSession finds an existing session, its trace starts by
killing the old container and pty, then broadcasts the stopped event with
reason restarted, and only afterwards may it spawn the new run; in the tail of
the trace no output broadcast ever precedes the spawn of the new run, so the
stopped event is broadcast before any output of the new run can be. -/
theorem startSession_restart_order (st : MgrState) (env : String)
    (fileNames : List String) (clientHash clientFiles : List (String × String))
    (failAt : Option FailPoint) (s : Session)
    (hs : alookup st.sessions env = some s) :
    ∃ tl : List SbAction,
      (startSession st env fileNames clientHash clientFiles failAt).2.1 =
        SbAction.killContainer s.containerName :: SbAction.killPty env ::
          SbAction.broadcast env (stoppedRestartedMsg env) :: tl ∧
      (∀ i j mf t, tl.get? i = some (SbAction.spawnRun env mf) →
        tl.get? j = some (SbAction.broadcast env (Msg.output t)) → i < j) := by
  cases failAt with
  | none =>
    refine ⟨[SbAction.spawnRun env
        (if fileNames.contains "main.py" then "main.py" else fileNames.headD "")],
      ?_, ?_⟩
    · simp [startSession, hs, stopSession]
    · intro i j mf t hi hj
      exfalso
      match j, hj with
      | 0, hj => simp at hj
      | n + 1, hj => simp [List.get?] at hj
  | some fp =>
    refine ⟨[SbAction.broadcast env (Msg.output (errText fp)),
        SbAction.broadcast env (Msg.exited 1)], ?_, ?_⟩
    · simp [startSession, hs, stopSession]
    · intro i j mf t hi hj
      exfalso
      match i, hi with
      | 0, hi => simp at hi
      | 1, hi => simp at hi
      | n + 2, hi => simp [List.get?] at hi

/-- Witness for startSession_restart_order: restarting the session of
environment e, whose clients see the stopped broadcast before the spawn. -/
theorem startSession_restart_order_witness :
    alookup [("e", (⟨"nixpackpy_e", "e"⟩ : Session))] "e" =
      some ⟨"nixpackpy_e", "e"⟩ ∧
    (∃ tl : List SbAction,
      (startSession ⟨[("e", ⟨"nixpackpy_e", "e"⟩)], [("e", [0])], [], []⟩ "e"
          ["main.py"] [] [] none).2.1 =
        SbAction.killContainer "nixpackpy_e" :: SbAction.killPty "e" ::
          SbAction.broadcast "e" (stoppedRestartedMsg "e") :: tl ∧
      (∀ i j mf t, tl.get? i = some (SbAction.spawnRun "e" mf) →
        tl.get? j = some (SbAction.broadcast "e" (Msg.output t)) → i < j)) :=
  ⟨by decide,
   startSession_restart_order ⟨[("e", ⟨"nixpackpy_e", "e"⟩)], [("e", [0])], [], []⟩
     "e" ["main.py"] [] [] none ⟨"nixpackpy_e", "e"⟩ (by decide)⟩

/-- C1 is contradicted by the code: on a run request whose client hash differs
from the server-computed hash, the files materialized into the working
directory that the sandbox executes against are still the store's contents.
Here the store holds main.py with body print(1), the caller supplies hash []
(which differs from the computed hash) and client files with body print(2),
yet the working directory ends up holding print(1), not print(2): the
client-files assignment in the source happens after the directory write and
is never consulted. -/
theorem startSession_hash_mismatch_materializes_store_files :
    ([] : List (String × String)) ≠
      buildFileObject [("env1_main.py", "print(1)")] "env1" ["main.py"] ∧
    alookup (startSession ⟨[], [], [], [("env1_main.py", "print(1)")]⟩ "env1"
        ["main.py"] [] [("main.py", "print(2)")] none).1.workdirs "env1" =
      some [("main.py", "print(1)")] ∧
    alookup (startSession ⟨[], [], [], [("env1_main.py", "print(1)")]⟩ "env1"
        ["main.py"] [] [("main.py", "print(2)")] none).1.workdirs "env1" ≠
      some [("main.py", "print(2)")] ∧
    (startSession ⟨[], [], [], [("env1_main.py", "print(1)")]⟩ "env1"
        ["main.py"] [] [("main.py", "print(2)")] none).2.2 = true := by
  refine ⟨by decide, by decide, by decide, by decide⟩

end NpSocket
